/-
Verification of the `padify` image tool (`src/padify/src/main.rs`).

Shallow embedding conventions:
* `u8`/`u32`/`u64`/`usize` values are modelled as `Nat`; where the source uses
  checked u32 arithmetic (`checked_mul`/`checked_add`), the embedding checks the
  `u32::MAX` bound explicitly.  `saturating_sub` on unsigned integers is exactly
  `Nat` subtraction.
* `f32` values are modelled as exact rationals (`ℚ`); every float literal of the
  source (`0.02`, `0.005`, `0.7`, `0.35`, `0.2`, `0.6`, `0.06`) is taken at its
  exact decimal value.  `f32::round` (round half away from zero, on the
  nonnegative values that occur here) is `round : ℚ → ℤ`.
* An image is a width, a height and a total pixel function; the in-bounds
  region is the part the theorems talk about.
* The `image` crate's `crop_imm(0, 0, w, k).to_image()` keeps the pixel function
  and truncates the height to `k`; `HashMap` bucket accumulation is modelled by
  an association list in insertion order (iteration order of the map is
  unspecified in the source; which bucket wins a tie of counts is likewise
  implementation-defined, and no theorem below depends on it).
-/
import Mathlib

attribute [local semireducible] Rat.mul Rat.add Rat.sub Rat.inv Rat.ofScientific

set_option maxRecDepth 40000
set_option maxHeartbeats 16000000

/-- One RGBA pixel: four 8-bit channels, modelled as `Nat` (`Rgba<u8>`). -/
structure Pixel where
  r : Nat
  g : Nat
  b : Nat
  a : Nat
deriving DecidableEq

/-- An image: dimensions plus a (total) pixel function (`RgbaImage`). -/
structure Image where
  width : Nat
  height : Nat
  pix : Nat → Nat → Pixel

/-- `fn clamp_u32(value, min, max)` from the source. -/
def clamp_u32 (value min max : Nat) : Nat :=
  if value < min then min else if value > max then max else value

/-- `fn is_background(pixel, bg, threshold)`: the sum of the four per-channel
absolute differences is at most the threshold. -/
def is_background (pixel bg : Pixel) (threshold : Nat) : Bool :=
  ((pixel.r : Int) - bg.r).natAbs + ((pixel.g : Int) - bg.g).natAbs +
      ((pixel.b : Int) - bg.b).natAbs + ((pixel.a : Int) - bg.a).natAbs ≤ threshold

/-- `(0..n).step_by(s)` for `s ≥ 1`: the multiples of `s` below `n`. -/
def rangeStep (n s : Nat) : List Nat :=
  (List.range ((n + s - 1) / s)).map (· * s)

/-- The column stride of the row classifier: `max(1, w / 400)`. -/
def stride_x (w : Nat) : Nat := max 1 (w / 400)

/-- One row of the sampling loop of `auto_crop_bottom_partial`: the pair
`(samples, non_bg)` accumulated over every `stride_x`-th column of row `y`. -/
def rowCounts (img : Image) (bg : Pixel) (y : Nat) : Nat × Nat :=
  (rangeStep img.width (stride_x img.width)).foldl
    (fun sc x =>
      (sc.1 + 1, if is_background (img.pix x y) bg 18 then sc.2 else sc.2 + 1))
    (0, 0)

/-- The content fraction of row `y`: `non_bg as f32 / samples as f32`
(`0.0` when the row has no samples). -/
def rowRatio (img : Image) (bg : Pixel) (y : Nat) : ℚ :=
  let sc := rowCounts img bg y
  if sc.1 = 0 then 0 else (sc.2 : ℚ) / (sc.1 : ℚ)

/-- The vector `ratios` of the source: one content fraction per row. -/
def ratios (img : Image) (bg : Pixel) : List ℚ :=
  (List.range img.height).map (rowRatio img bg)

/-- `major_rows`: rows whose fraction exceeds `0.02`. -/
def major_rows (img : Image) (bg : Pixel) : List Bool :=
  (ratios img bg).map (fun r => decide (r > 0.02))

/-- `minor_rows`: rows whose fraction exceeds `0.005`. -/
def minor_rows (img : Image) (bg : Pixel) : List Bool :=
  (ratios img bg).map (fun r => decide (r > 0.005))

/-- One step of the cluster-building loop.  The state is
`(clusters, in_cluster, start)`; the input is `(i, has_content)`. -/
def clusterStep (st : List (Nat × Nat) × Bool × Nat) (p : Nat × Bool) :
    List (Nat × Nat) × Bool × Nat :=
  if p.2 ∧ ¬ st.2.1 then (st.1, true, p.1)
  else if ¬ p.2 ∧ st.2.1 then (st.1 ++ [(st.2.2, p.1 - 1)], false, st.2.2)
  else st

/-- The cluster-building pass of `auto_crop_bottom_partial`: maximal runs of
major rows, as inclusive `(start, end)` pairs; a run still open at the end of
the image is closed with `h.saturating_sub(1)`. -/
def findClusters (rows : List Bool) (h : Nat) : List (Nat × Nat) :=
  let st := rows.enum.foldl clusterStep ([], false, 0)
  if st.2.1 then st.1 ++ [(st.2.2, h - 1)] else st.1

/-- `bottom_margin_major`: how many trailing rows are not major. -/
def bottomMarginMajor (rows : List Bool) : Nat :=
  (rows.reverse.takeWhile (fun b => ! b)).length

/-- The `heights` vector fed to the median: the heights of all clusters except
the last, filtered to height ≥ 4; if that set is empty, the heights of all
clusters. -/
def clusterHeights (clusters : List (Nat × Nat)) : List Nat :=
  let heights :=
    ((clusters.take (clusters.length - 1)).map (fun se => se.2 - se.1 + 1)).filter
      (fun x => 4 ≤ x)
  if heights.isEmpty then clusters.map (fun se => se.2 - se.1 + 1) else heights

/-- Insertion into a sorted list (helper realizing `sort_unstable` on `Nat`
keys, where stability is vacuous). -/
def insertSorted (x : Nat) : List Nat → List Nat
  | [] => [x]
  | y :: ys => if x ≤ y then x :: y :: ys else y :: insertSorted x ys

/-- The sorted copy of a list of `Nat` (`values.sort_unstable()`). -/
def sortNat (l : List Nat) : List Nat := l.foldr insertSorted []

/-- `fn median_u32(values)`: `None` on the empty list, else the middle element
of the sorted list, or the mean of the two middle elements. -/
def median_u32 (values : List Nat) : Option ℚ :=
  if values.isEmpty then none
  else
    let sorted := sortNat values
    let mid := sorted.length / 2
    if sorted.length % 2 = 1 then some ((sorted.getD mid 0 : Nat) : ℚ)
    else some (((sorted.getD (mid - 1) 0 : Nat) + (sorted.getD mid 0 : Nat) : ℚ) / 2)

/-- The partial-trailing-line step of `auto_crop_bottom_partial`: `some cut`
when the image is to be cropped to keep rows `[0, cut)` with reason
`"partial_line"`, `none` when this step does not decide. -/
def partialLineCut (clusters : List (Nat × Nat)) (bottom_margin_major : Nat)
    (median : ℚ) : Option Nat :=
  if 2 ≤ clusters.length ∧ bottom_margin_major ≤ 2 ∧ 0 < median then
    match clusters.getLast? with
    | some se =>
        if ((se.2 - se.1 + 1 : Nat) : ℚ) < median * 0.7 ∧ 0 < se.1 then some se.1
        else none
    | none => none
  else none

/-- `iter().rposition(p)` specialised to the identity on `Bool`, as a
recursion carrying the index of the head. -/
def rpositionAux : List Bool → Nat → Option Nat
  | [], _ => none
  | b :: bs, i =>
      match rpositionAux bs (i + 1) with
      | some j => some j
      | none => if b then some i else none

/-- The index of the last `true` entry of a list of booleans, if any. -/
def rposition (rows : List Bool) : Option Nat := rpositionAux rows 0

/-- The backward walk `while start_minor > 0 && minor_rows[start_minor - 1]`. -/
def startMinorFrom (rows : List Bool) : Nat → Nat
  | 0 => 0
  | i + 1 => if rows.getD i false then startMinorFrom rows i else i + 1

/-- The cursor/residue step of `auto_crop_bottom_partial`: `some cut` when the
image is to be cropped to keep rows `[0, cut)` with reason `"cursor_residue"`,
`none` when this step does not decide. -/
def cursorCut (majors minors : List Bool) (median : ℚ) (h : Nat) : Option Nat :=
  match rposition majors, rposition minors with
  | some last_major, some last_minor =>
      if last_major < last_minor then
        let start_minor := startMinorFrom minors last_minor
        let block_height := last_minor - start_minor + 1
        let gap := start_minor - (last_major + 1)
        let line_height : ℚ :=
          if 0 < median then median else ((clamp_u32 (h / 30) 12 28 : Nat) : ℚ)
        let thin_block := (block_height : ℚ) < line_height * 0.35
        let min_gap := max 2 (round (line_height * 0.2)).toNat
        if (min_gap ≤ gap ∨ (thin_block ∧ 1 ≤ gap)) ∧
            (block_height : ℚ) < line_height * 0.6 then
          some start_minor
        else none
      else none
  | _, _ => none

/-- The crop report `{original_height, new_height, reason}`. -/
structure CropReport where
  original_height : Nat
  new_height : Nat
  reason : String

/-- A crop decision: the (possibly cropped) image plus its report. -/
structure CropResult where
  image : Image
  report : CropReport

/-- `CropResult::no_crop`: the unchanged image. -/
def CropResult.no_crop (image : Image) (reason : String) : CropResult :=
  { image, report := { original_height := image.height, new_height := image.height, reason } }

/-- `CropResult::cropped`: a cropped image together with the original height. -/
def CropResult.cropped (image : Image) (original_height : Nat) (reason : String) :
    CropResult :=
  { image, report := { original_height, new_height := image.height, reason } }

/-- `imageops::crop_imm(image, 0, 0, w, k).to_image()`: keep rows `[0, k)`. -/
def cropRows (img : Image) (k : Nat) : Image :=
  { width := img.width, height := k, pix := img.pix }

/-- `fn auto_crop_bottom_partial(image, bg)`: the crop decision engine
(named `auto_crop_bottom` here). -/
def auto_crop_bottom (img : Image) (bg : Pixel) : CropResult :=
  if img.width = 0 ∨ img.height = 0 then CropResult.no_crop img "empty"
  else
    let majors := major_rows img bg
    let clusters := findClusters majors img.height
    if clusters.isEmpty then CropResult.no_crop img "no_clusters"
    else
      let median := (median_u32 (clusterHeights clusters)).getD 0
      match partialLineCut clusters (bottomMarginMajor majors) median with
      | some cut => CropResult.cropped (cropRows img cut) img.height "partial_line"
      | none =>
          match cursorCut majors (minor_rows img bg) median img.height with
          | some cut => CropResult.cropped (cropRows img cut) img.height "cursor_residue"
          | none => CropResult.no_crop img "clean"

/-! ## Padding and composition -/

/-- `u32::MAX`. -/
def U32_MAX : Nat := 4294967295

/-- `a.checked_mul(b)` on `u32` operands. -/
def checked_mul_u32 (a b : Nat) : Option Nat :=
  if a * b ≤ U32_MAX then some (a * b) else none

/-- `a.checked_add(b)` on `u32` operands. -/
def checked_add_u32 (a b : Nat) : Option Nat :=
  if a + b ≤ U32_MAX then some (a + b) else none

/-- `fn padded_dimensions((w, h), pad_x, pad_y)`: double each padding and add
it to the matching dimension, failing on the first u32 overflow. -/
def padded_dimensions (wh : Nat × Nat) (pad_x pad_y : Nat) :
    Except String (Nat × Nat) :=
  match checked_mul_u32 pad_x 2 with
  | none => .error "horizontal padding is too large"
  | some pad_x2 =>
      match checked_mul_u32 pad_y 2 with
      | none => .error "vertical padding is too large"
      | some pad_y2 =>
          match checked_add_u32 wh.1 pad_x2 with
          | none => .error "resulting width is too large"
          | some new_w =>
              match checked_add_u32 wh.2 pad_y2 with
              | none => .error "resulting height is too large"
              | some new_h => .ok (new_w, new_h)

/-- `fn auto_pad(value, ratio, min, max)`: round the scaled value and clamp. -/
def auto_pad (value : Nat) (q : ℚ) (min max : Nat) : Nat :=
  clamp_u32 (round ((value : ℚ) * q)).toNat min max

/-- `fn resolve_padding(args, (w, h))`, with the three padding-related fields
of `Args` (`all`, `pad_x`, `pad_y`) passed explicitly. -/
def resolve_padding (all pad_x pad_y : Option Nat) (wh : Nat × Nat) :
    Except String (Nat × Nat) :=
  let auto := auto_pad (Min.min wh.1 wh.2) 0.06 48 320
  match all with
  | some a => .ok (a, a)
  | none =>
      match pad_x, pad_y with
      | some x, some y =>
          if x ≠ y then .error "pad-x and pad-y must be equal (or use --all/--pad)"
          else .ok (x, x)
      | some x, none => .ok (x, x)
      | none, some y => .ok (y, y)
      | none, none => .ok (auto, auto)

/-- Modelled from the spec: `ImageBuffer::from_pixel(w, h, c)` of the `image`
crate (not part of this repository) — "allocate a canvas of the computed size
filled entirely with the background color". -/
def from_pixel (w h : Nat) (c : Pixel) : Image := ⟨w, h, fun _ _ => c⟩

/-- Modelled from the spec: `image::imageops::replace(bottom, top, ox, oy)` of
the `image` crate (not part of this repository) — "copy the source image's
pixels into it at offset (pad_x, pad_y), without any blending — destination
pixels in the copied region become exactly equal to the corresponding source
pixels; all other destination pixels remain the fill color". -/
def replaceAt (bottom top : Image) (ox oy : Nat) : Image :=
  { width := bottom.width, height := bottom.height
    pix := fun x y =>
      if ox ≤ x ∧ x < ox + top.width ∧ oy ≤ y ∧ y < oy + top.height then
        top.pix (x - ox) (y - oy)
      else bottom.pix x y }

/-- Lines 88–91 of `main`: compute the padded dimensions, fill a canvas with
the background color and place the source on it at offset `(pad_x, pad_y)`. -/
def composePadded (src : Image) (bg : Pixel) (pad_x pad_y : Nat) :
    Except String Image :=
  (padded_dimensions (src.width, src.height) pad_x pad_y).map fun wh =>
    replaceAt (from_pixel wh.1 wh.2 bg) src pad_x pad_y

/-! ## Background estimation -/

/-- `fn quantize_key(pixel)`: drop the low 3 bits of each channel and pack. -/
def quantize_key (pixel : Pixel) : Nat :=
  ((pixel.r >>> 3) <<< 15) ||| ((pixel.g >>> 3) <<< 10) |||
    ((pixel.b >>> 3) <<< 5) ||| (pixel.a >>> 3)

/-- A color bucket: a sample count and per-channel sums (`struct Bucket`). -/
structure Bucket where
  count : Nat := 0
  sum_r : Nat := 0
  sum_g : Nat := 0
  sum_b : Nat := 0
  sum_a : Nat := 0
deriving DecidableEq

/-- Accumulating one pixel into a bucket (the body of the `entry` update). -/
def addToBucket (bk : Bucket) (p : Pixel) : Bucket :=
  { count := bk.count + 1, sum_r := bk.sum_r + p.r, sum_g := bk.sum_g + p.g
    sum_b := bk.sum_b + p.b, sum_a := bk.sum_a + p.a }

/-- `buckets.entry(key).or_insert_with(Bucket::default)` followed by the
accumulation, on the association-list model of the `HashMap`. -/
def bucketInsert (buckets : List (Nat × Bucket)) (key : Nat) (p : Pixel) :
    List (Nat × Bucket) :=
  match buckets with
  | [] => [(key, addToBucket {} p)]
  | kb :: rest =>
      if kb.1 = key then (kb.1, addToBucket kb.2 p) :: rest
      else kb :: bucketInsert rest key p

/-- The mutable state of the sampling loop of `dominant_sample`. -/
structure SState where
  total : Nat
  transparent : Nat
  buckets : List (Nat × Bucket)

/-- The body of the sampling loop of `dominant_sample` for one position. -/
def sampleStep (img : Image) (incl : Nat → Nat → Bool) (st : SState)
    (p : Nat × Nat) : SState :=
  if incl p.1 p.2 then
    let pixel := img.pix p.1 p.2
    if pixel.a ≤ 5 then
      { st with total := st.total + 1, transparent := st.transparent + 1 }
    else
      { st with total := st.total + 1
                buckets := bucketInsert st.buckets (quantize_key pixel) pixel }
  else st

/-- The sampled grid of `dominant_sample`: every `stride_y`-th row crossed
with every `stride_x`-th column, in loop order. -/
def gridPositions (w h sx sy : Nat) : List (Nat × Nat) :=
  (rangeStep h sy).flatMap fun y => (rangeStep w sx).map fun x => (x, y)

/-- The selection of the most frequent bucket (the `best` / `best_count`
loop); iteration order of the map is modelled as insertion order, and the
strict comparison keeps the first bucket of maximal count. -/
def bestOf (buckets : List (Nat × Bucket)) : Option Bucket :=
  (buckets.foldl
      (fun (acc : Option Bucket × Nat) kb =>
        if acc.2 < kb.2.count then (some kb.2, kb.2.count) else acc)
      (none, 0)).1

/-- The result of a sampling pass (`struct SampleResult`). -/
structure SampleResult where
  total : Nat
  transparent : Nat
  best : Option Bucket

/-- `fn dominant_sample(image, stride_x, stride_y, include)`. -/
def dominant_sample (img : Image) (sx sy : Nat) (incl : Nat → Nat → Bool) :
    SampleResult :=
  let st := (gridPositions img.width img.height sx sy).foldl
    (sampleStep img incl) ⟨0, 0, []⟩
  { total := st.total, transparent := st.transparent, best := bestOf st.buckets }

/-- `SampleResult::color_if_confident(threshold)`: the per-channel integer
mean of the best bucket, provided its count covers at least `threshold` of the
non-transparent samples.  The `as u8` casts are the `% 256` truncations. -/
def SampleResult.color_if_confident (s : SampleResult) (threshold : ℚ) :
    Option Pixel :=
  let non_transparent := s.total - s.transparent
  if non_transparent = 0 then none
  else
    match s.best with
    | none => none
    | some bucket =>
        if ((bucket.count : ℚ) / (non_transparent : ℚ)) < threshold then none
        else
          some ⟨bucket.sum_r / bucket.count % 256, bucket.sum_g / bucket.count % 256,
            bucket.sum_b / bucket.count % 256, bucket.sum_a / bucket.count % 256⟩

/-- `SampleResult::transparent_ratio()` (named without the `ratio` suffix of
the source to suit the development's naming): `1.0` when there are no samples,
else the transparent fraction. -/
def SampleResult.transparentFrac (s : SampleResult) : ℚ :=
  if s.total = 0 then 1 else (s.transparent : ℚ) / (s.total : ℚ)

/-- The row stride of the background estimator: `max(1, w / 200)`. -/
def bgStrideX (img : Image) : Nat := max 1 (img.width / 200)

/-- The column stride of the background estimator: `max(1, h / 200)`. -/
def bgStrideY (img : Image) : Nat := max 1 (img.height / 200)

/-- The border-band width: `clamp(min(w, h) / 20, 8, 64)`. -/
def borderBand (img : Image) : Nat :=
  clamp_u32 (Min.min img.width img.height / 20) 8 64

/-- The border-band membership test of `deduce_background` (the closure passed
to the first `dominant_sample` call); `saturating_sub` is `Nat` subtraction. -/
def borderInclude (img : Image) (x y : Nat) : Bool :=
  decide (x < borderBand img ∨ img.width - borderBand img ≤ x ∨
    y < borderBand img ∨ img.height - borderBand img ≤ y)

/-- The border-band sampling pass of `deduce_background`. -/
def borderResult (img : Image) : SampleResult :=
  dominant_sample img (bgStrideX img) (bgStrideY img) (borderInclude img)

/-- The whole-image sampling pass of `deduce_background`. -/
def overallResult (img : Image) : SampleResult :=
  dominant_sample img (bgStrideX img) (bgStrideY img) (fun _ _ => true)

/-- `fn deduce_background(image)`: fully transparent on a degenerate image;
else the confident border color; else transparent if the border is mostly
transparent; else the confident overall color, defaulting to transparent. -/
def deduce_background (img : Image) : Pixel :=
  if img.width = 0 ∨ img.height = 0 then ⟨0, 0, 0, 0⟩
  else
    match (borderResult img).color_if_confident 0.2 with
    | some color => color
    | none =>
        if 0.6 ≤ (borderResult img).transparentFrac then ⟨0, 0, 0, 0⟩
        else ((overallResult img).color_if_confident 0.1).getD ⟨0, 0, 0, 0⟩

/-! ## Concrete inputs used by the counterexample and the witnesses -/

/-- Opaque white. -/
def whitePx : Pixel := ⟨255, 255, 255, 255⟩

/-- Opaque black. -/
def blackPx : Pixel := ⟨0, 0, 0, 255⟩

/-- The banded column of the partial-line scenario: solid black exactly on
rows 20–60 and 120–130, white elsewhere. -/
def bandedPix (y : Nat) : Pixel :=
  if (20 ≤ y ∧ y ≤ 60) ∨ (120 ≤ y ∧ y ≤ 130) then blackPx else whitePx

/-- The partial-line scenario image at the height the claim states: 100×200. -/
def img200 : Image := ⟨100, 200, fun _ y => bandedPix y⟩

/-- The partial-line scenario image at height 133, the largest height at which
the last content band (ending at row 130) leaves a bottom margin of at most 2
major-free rows. -/
def img133 : Image := ⟨100, 133, fun _ y => bandedPix y⟩

/-- The cursor-residue scenario image: 100×35, a solid black band on rows
2–12, and a single black pixel at (0, 30) — a faint row (fraction 1/100) that
is minor but not major. -/
def imgCursor : Image :=
  ⟨100, 35, fun x y =>
    if 2 ≤ y ∧ y ≤ 12 then blackPx
    else if y = 30 ∧ x = 0 then blackPx
    else whitePx⟩

/-- A degenerate image of width 0. -/
def imgZeroW : Image := ⟨0, 5, fun _ _ => whitePx⟩

/-- A 4×4 image of a single opaque color. -/
def imgSolid4 : Image := ⟨4, 4, fun _ _ => ⟨10, 20, 30, 255⟩⟩

/-- A 2×2 image with four pairwise distinct pixels. -/
def imgFour : Image :=
  ⟨2, 2, fun x y => ⟨x, y, 7, 255⟩⟩

/-- The composed output for the 2×2 four-pixel image padded by 1 on a white
background. -/
def paddedFour : Image := replaceAt (from_pixel 4 4 whitePx) imgFour 1 1

/-- The median the crop decision engine ends up using (`.unwrap_or(0.0)`). -/
def cropMedian (img : Image) (bg : Pixel) : ℚ :=
  (median_u32 (clusterHeights (findClusters (major_rows img bg) img.height))).getD 0

/-- The `line_height` of the cursor step: the median when positive, else
`clamp(h / 30, 12, 28)`. -/
def cropLineHeight (img : Image) (bg : Pixel) : ℚ :=
  if 0 < cropMedian img bg then cropMedian img bg
  else ((clamp_u32 (img.height / 30) 12 28 : Nat) : ℚ)

/-! ## Lemmas about the sampling grids -/

/-- Every element of `rangeStep n s` (for a positive stride) is below `n`. -/
theorem mem_rangeStep_lt {n s x : Nat} (hs : 0 < s) (hx : x ∈ rangeStep n s) :
    x < n := by
  unfold rangeStep at hx
  obtain ⟨i, hi, rfl⟩ := List.mem_map.mp hx
  have hi' : i < (n + s - 1) / s := List.mem_range.mp hi
  have h1 : (i + 1) * s ≤ n + s - 1 := (Nat.le_div_iff_mul_le hs).mp hi'
  have h2 : i * s + s ≤ n + s - 1 := by nlinarith
  omega

/-- Every sampled grid position (for positive strides) is inside the image. -/
theorem mem_gridPositions_lt {w h sx sy : Nat} (hsx : 0 < sx) (hsy : 0 < sy)
    {p : Nat × Nat} (hp : p ∈ gridPositions w h sx sy) : p.1 < w ∧ p.2 < h := by
  unfold gridPositions at hp
  obtain ⟨y, hy, hmem⟩ := List.mem_flatMap.mp hp
  obtain ⟨x, hx, rfl⟩ := List.mem_map.mp hmem
  exact ⟨mem_rangeStep_lt hsx hx, mem_rangeStep_lt hsy hy⟩

/-- There is one major-row flag per row of the image. -/
theorem length_major_rows (img : Image) (bg : Pixel) :
    (major_rows img bg).length = img.height := by
  simp [major_rows, ratios]

/-- There is one minor-row flag per row of the image. -/
theorem length_minor_rows (img : Image) (bg : Pixel) :
    (minor_rows img bg).length = img.height := by
  simp [minor_rows, ratios]

/-! ## Lemmas about cluster construction -/

/-- The cluster-building fold keeps every recorded start index below any bound
that dominates the enumeration indices and the current state. -/
theorem clusterFold_bound (N : Nat) (l : List (Nat × Bool))
    (hl : ∀ q ∈ l, q.1 < N) (st : List (Nat × Nat) × Bool × Nat)
    (h1 : ∀ p ∈ st.1, p.1 < N) (h2 : st.2.1 = true → st.2.2 < N) :
    (∀ p ∈ (l.foldl clusterStep st).1, p.1 < N) ∧
      ((l.foldl clusterStep st).2.1 = true → (l.foldl clusterStep st).2.2 < N) := by
  induction l generalizing st with
  | nil => exact ⟨h1, h2⟩
  | cons q rest ih =>
      have hq := hl q (List.mem_cons_self _ _)
      have hstep : (∀ p ∈ (clusterStep st q).1, p.1 < N) ∧
          ((clusterStep st q).2.1 = true → (clusterStep st q).2.2 < N) := by
        unfold clusterStep
        split
        · exact ⟨h1, fun _ => hq⟩
        · split
          next hc2 =>
            refine ⟨?_, by simp⟩
            intro p hp
            rcases List.mem_append.mp hp with hmem | hmem
            · exact h1 p hmem
            · rcases List.mem_singleton.mp hmem with rfl
              exact h2 hc2.2
          next => exact ⟨h1, h2⟩
      exact ih (fun q' hq' => hl q' (List.mem_cons_of_mem _ hq')) _ hstep.1 hstep.2

/-- Every cluster's start row is below the image height (given one flag per
row). -/
theorem findClusters_start_lt {rows : List Bool} {h : Nat}
    (hlen : rows.length = h) {p : Nat × Nat} (hp : p ∈ findClusters rows h) :
    p.1 < h := by
  unfold findClusters at hp
  have henum : ∀ q ∈ rows.enum, q.1 < h := by
    intro q hq
    rw [List.enum_eq_zip_range] at hq
    have := (List.of_mem_zip hq).1
    rw [List.mem_range] at this
    omega
  have hmain := clusterFold_bound h rows.enum henum ([], false, 0)
    (by simp) (by simp)
  simp only at hp
  split at hp
  · rcases List.mem_append.mp hp with hmem | hmem
    · exact hmain.1 p hmem
    · rcases List.mem_singleton.mp hmem with rfl
      next hc => exact hmain.2 hc
  · exact hmain.1 p hp

/-- A partial-line cut is a cluster start, hence below the image height. -/
theorem partialLineCut_lt {rows : List Bool} {h bmm : Nat} {median : ℚ}
    {cut : Nat} (hlen : rows.length = h)
    (hc : partialLineCut (findClusters rows h) bmm median = some cut) :
    cut < h := by
  unfold partialLineCut at hc
  split at hc
  · split at hc
    next se heq =>
      split at hc
      · have hmem := List.mem_of_getLast?_eq_some heq
        cases hc
        exact findClusters_start_lt hlen hmem
      · exact absurd hc (by simp)
    next => exact absurd hc (by simp)
  · exact absurd hc (by simp)

/-! ## Lemmas about `rposition` and the backward walk -/

/-- A found position lies between the starting index and the end of the
list. -/
theorem rpositionAux_bound :
    ∀ (l : List Bool) (i j : Nat), rpositionAux l i = some j →
      i ≤ j ∧ j < i + l.length := by
  intro l
  induction l with
  | nil => intro i j h; exact absurd h (by simp [rpositionAux])
  | cons b bs ih =>
      intro i j h
      unfold rpositionAux at h
      cases heq : rpositionAux bs (i + 1) with
      | some j2 =>
          rw [heq] at h
          simp only [Option.some.injEq] at h
          subst h
          have := ih (i + 1) j2 heq
          simp only [List.length_cons]
          omega
      | none =>
          rw [heq] at h
          simp only at h
          split at h
          · simp only [Option.some.injEq] at h
            subst h
            simp
          · exact absurd h (by simp)

/-- If some entry at index `k` is true, the search cannot fail. -/
theorem rpositionAux_ne_none :
    ∀ (l : List Bool) (i k : Nat), l.getD k false = true →
      rpositionAux l i ≠ none := by
  intro l
  induction l with
  | nil => intro i k h; simp at h
  | cons b bs ih =>
      intro i k h
      unfold rpositionAux
      cases heq : rpositionAux bs (i + 1) with
      | some j2 => simp
      | none =>
          cases k with
          | zero =>
              simp only [List.getD_cons_zero] at h
              simp [h]
          | succ k' =>
              simp only [List.getD_cons_succ] at h
              exact absurd heq (ih (i + 1) k' h)

/-- The found position dominates the index of every true entry. -/
theorem rpositionAux_maximal :
    ∀ (l : List Bool) (i j : Nat), rpositionAux l i = some j →
      ∀ k, l.getD k false = true → i + k ≤ j := by
  intro l
  induction l with
  | nil => intro i j h; exact absurd h (by simp [rpositionAux])
  | cons b bs ih =>
      intro i j h k hk
      unfold rpositionAux at h
      cases heq : rpositionAux bs (i + 1) with
      | some j2 =>
          rw [heq] at h
          simp only [Option.some.injEq] at h
          subst h
          cases k with
          | zero => have := (rpositionAux_bound bs (i + 1) j2 heq).1; omega
          | succ k' =>
              simp only [List.getD_cons_succ] at hk
              have := ih (i + 1) j2 heq k' hk
              omega
      | none =>
          rw [heq] at h
          simp only at h
          split at h
          · simp only [Option.some.injEq] at h
            subst h
            cases k with
            | zero => omega
            | succ k' =>
                simp only [List.getD_cons_succ] at hk
                exact absurd heq (rpositionAux_ne_none bs (i + 1) k' hk)
          · exact absurd h (by simp)

/-- The last true index is inside the list. -/
theorem rposition_lt {rows : List Bool} {j : Nat}
    (h : rposition rows = some j) : j < rows.length := by
  have := rpositionAux_bound rows 0 j h
  omega

/-- Every true index is at most the last true index. -/
theorem rposition_maximal {rows : List Bool} {j : Nat}
    (h : rposition rows = some j) {k : Nat} (hk : rows.getD k false = true) :
    k ≤ j := by
  have := rpositionAux_maximal rows 0 j h k hk
  omega

/-- The backward walk never moves forward. -/
theorem startMinorFrom_le (rows : List Bool) : ∀ i, startMinorFrom rows i ≤ i := by
  intro i
  induction i with
  | zero => simp [startMinorFrom]
  | succ i' ih =>
      unfold startMinorFrom
      split
      · omega
      · omega

/-! ## Lemmas about the cursor step -/

/-- A successful cursor cut names the two `rposition` results, equals the
backward walk from the last minor row, and leaves a gap of at least one row
after the last major row. -/
theorem cursorCut_some {majors minors : List Bool} {median : ℚ} {h cut : Nat}
    (hc : cursorCut majors minors median h = some cut) :
    ∃ lm ln, rposition majors = some lm ∧ rposition minors = some ln ∧
      lm < ln ∧ cut = startMinorFrom minors ln ∧ lm + 2 ≤ cut := by
  unfold cursorCut at hc
  cases hlm : rposition majors with
  | none => rw [hlm] at hc; simp at hc
  | some lm =>
      cases hln : rposition minors with
      | none => rw [hlm, hln] at hc; simp at hc
      | some ln =>
          simp only [hlm, hln] at hc
          split at hc
          next hlt =>
            split at hc
            all_goals
              split at hc
              next hcond =>
                simp only [Option.some.injEq] at hc
                subst hc
                refine ⟨lm, ln, rfl, rfl, hlt, rfl, ?_⟩
                have hgap1 : 1 ≤ startMinorFrom minors ln - (lm + 1) := by
                  rcases hcond.1 with hgap | hgap
                  · omega
                  · exact hgap.2
                omega
              next => exact absurd hc (by simp)
          next => exact absurd hc (by simp)

/-- A successful cursor cut is below the image height. -/
theorem cursorCut_lt {majors minors : List Bool} {median : ℚ} {h cut : Nat}
    (hlen : minors.length = h)
    (hc : cursorCut majors minors median h = some cut) : cut < h := by
  obtain ⟨lm, ln, hlm, hln, hlt, rfl, hgap⟩ := cursorCut_some hc
  have h1 := startMinorFrom_le minors ln
  have h2 := rposition_lt hln
  omega

/-! ## The shape of every crop decision -/

/-- The crop decision engine returns either the unchanged image (reason
"empty", "no_clusters" or "clean"), or a row prefix cut by the partial-line
step, or a row prefix cut by the cursor step; each case records the condition
that selected it. -/
theorem auto_crop_shape (img : Image) (bg : Pixel) :
    ((img.width = 0 ∨ img.height = 0) ∧
      auto_crop_bottom img bg = CropResult.no_crop img "empty") ∨
    (findClusters (major_rows img bg) img.height = [] ∧
      auto_crop_bottom img bg = CropResult.no_crop img "no_clusters") ∨
    (∃ cut, partialLineCut (findClusters (major_rows img bg) img.height)
        (bottomMarginMajor (major_rows img bg))
        ((median_u32 (clusterHeights (findClusters (major_rows img bg) img.height))).getD 0) =
          some cut ∧
      auto_crop_bottom img bg =
        CropResult.cropped (cropRows img cut) img.height "partial_line") ∨
    (partialLineCut (findClusters (major_rows img bg) img.height)
        (bottomMarginMajor (major_rows img bg))
        ((median_u32 (clusterHeights (findClusters (major_rows img bg) img.height))).getD 0) =
          none ∧
      ∃ cut, cursorCut (major_rows img bg) (minor_rows img bg)
        ((median_u32 (clusterHeights (findClusters (major_rows img bg) img.height))).getD 0)
        img.height = some cut ∧
      auto_crop_bottom img bg =
        CropResult.cropped (cropRows img cut) img.height "cursor_residue") ∨
    (partialLineCut (findClusters (major_rows img bg) img.height)
        (bottomMarginMajor (major_rows img bg))
        ((median_u32 (clusterHeights (findClusters (major_rows img bg) img.height))).getD 0) =
          none ∧
      cursorCut (major_rows img bg) (minor_rows img bg)
        ((median_u32 (clusterHeights (findClusters (major_rows img bg) img.height))).getD 0)
        img.height = none ∧
      auto_crop_bottom img bg = CropResult.no_crop img "clean") := by
  unfold auto_crop_bottom
  split
  next hdeg => exact Or.inl ⟨hdeg, rfl⟩
  · simp only
    split
    next hemp =>
      exact Or.inr (Or.inl ⟨List.isEmpty_iff.mp hemp, rfl⟩)
    · split
      next cut heq => exact Or.inr (Or.inr (Or.inl ⟨cut, heq, rfl⟩))
      next heq =>
        split
        next cut heq2 => exact Or.inr (Or.inr (Or.inr (Or.inl ⟨heq, cut, heq2, rfl⟩)))
        next heq2 => exact Or.inr (Or.inr (Or.inr (Or.inr ⟨heq, heq2, rfl⟩)))

/-- C2: for every image and background color, the image returned by the crop
decision engine is exactly a prefix of the input's rows — its width equals
the input width, its height (which the report records as `new_height`) never
exceeds the input height, and every pixel above the cut equals the input
pixel at the same position. -/
theorem crop_engine_returns_row_prefix (img : Image) (bg : Pixel) :
    (auto_crop_bottom img bg).image.width = img.width ∧
    (auto_crop_bottom img bg).report.new_height =
      (auto_crop_bottom img bg).image.height ∧
    (auto_crop_bottom img bg).image.height ≤ img.height ∧
    ∀ x y, y < (auto_crop_bottom img bg).image.height →
      (auto_crop_bottom img bg).image.pix x y = img.pix x y := by
  rcases auto_crop_shape img bg with ⟨_, h⟩ | ⟨_, h⟩ | ⟨cut, hcut, h⟩ |
    ⟨_, cut, hcut, h⟩ | ⟨_, _, h⟩ <;> rw [h]
  · exact ⟨rfl, rfl, le_refl _, fun x y _ => rfl⟩
  · exact ⟨rfl, rfl, le_refl _, fun x y _ => rfl⟩
  · exact ⟨rfl, rfl, le_of_lt (partialLineCut_lt (length_major_rows img bg) hcut),
      fun x y _ => rfl⟩
  · exact ⟨rfl, rfl, le_of_lt (cursorCut_lt (length_minor_rows img bg) hcut),
      fun x y _ => rfl⟩
  · exact ⟨rfl, rfl, le_refl _, fun x y _ => rfl⟩

/-- C2 witness: the prefix property instantiated on the concrete width-zero
image, at the pixel (1, 2). -/
theorem crop_engine_returns_row_prefix_witness :
    (auto_crop_bottom imgZeroW whitePx).image.width = imgZeroW.width ∧
    (2 : Nat) < (auto_crop_bottom imgZeroW whitePx).image.height ∧
    (auto_crop_bottom imgZeroW whitePx).image.pix 1 2 = imgZeroW.pix 1 2 := by
  obtain ⟨hw, _, _, hpix⟩ := crop_engine_returns_row_prefix imgZeroW whitePx
  have h2 : (2 : Nat) < (auto_crop_bottom imgZeroW whitePx).image.height := by
    decide
  exact ⟨hw, h2, hpix 1 2 h2⟩

/-- C9: whenever the crop decision engine crops with reason "cursor_residue",
the crop boundary sits at least two rows after the last major row, so every
major row of the input is retained in the output image. -/
theorem cursor_residue_keeps_major_rows (img : Image) (bg : Pixel)
    (hreason : (auto_crop_bottom img bg).report.reason = "cursor_residue") :
    ∃ lm, rposition (major_rows img bg) = some lm ∧
      lm + 2 ≤ (auto_crop_bottom img bg).report.new_height ∧
      ∀ k, (major_rows img bg).getD k false = true →
        k < (auto_crop_bottom img bg).report.new_height := by
  rcases auto_crop_shape img bg with ⟨_, h⟩ | ⟨_, h⟩ | ⟨cut, hcut, h⟩ |
    ⟨_, cut, hcut, h⟩ | ⟨_, _, h⟩
  · rw [h] at hreason; simp [CropResult.no_crop] at hreason
  · rw [h] at hreason; simp [CropResult.no_crop] at hreason
  · rw [h] at hreason; simp [CropResult.cropped] at hreason
  · obtain ⟨lm, ln, hlm, hln, hlt, hcuteq, hge⟩ := cursorCut_some hcut
    rw [h]
    refine ⟨lm, hlm, by simpa [CropResult.cropped, cropRows] using hge, ?_⟩
    intro k hk
    have hmax : k ≤ lm := rposition_maximal hlm hk
    simp only [CropResult.cropped, cropRows]
    omega
  · rw [h] at hreason; simp [CropResult.no_crop] at hreason

/-- C3 counterexample: on the image of the claim — 100 wide, 200 tall, black
exactly on rows 20–60 and 120–130, white background — the engine does *not*
crop to height 120 with reason "partial_line": the last content band ends 69
rows above the bottom, so the bottom-margin test (≤ 2) fails.  The engine
returns the image unchanged with reason "clean". -/
theorem partial_line_scenario_height200_not_cropped :
    ¬ ((auto_crop_bottom img200 whitePx).report.new_height = 120 ∧
       (auto_crop_bottom img200 whitePx).report.reason = "partial_line") :=
  fun h => absurd h.2 (by decide)

/-- C3 amended: on the banded image of height 133 — the largest height whose
bottom margin after the last band (ending at row 130) is at most 2 — the
engine crops to height 120 (keeping rows [0, 120)) with reason
"partial_line". -/
theorem partial_line_scenario_height133_cropped :
    (auto_crop_bottom img133 whitePx).report.new_height = 120 ∧
    (auto_crop_bottom img133 whitePx).report.reason = "partial_line" :=
  ⟨by decide, by decide⟩

/-- C4: when a minor row exists strictly after the last major row and no
earlier step (no-clusters, partial-line) has decided, the engine crops to
keep rows [0, start_minor) with reason "cursor_residue" exactly when
((gap ≥ min_gap) or (thin and gap ≥ 1)) and block_height < 0.6 × line_height,
with start_minor the start of the maximal minor run ending at the last minor
row, block_height = last_minor − start_minor + 1, gap the (clamped)
distance from the row after the last major row to start_minor, thin meaning
block_height < 0.35 × line_height, and min_gap = max(2, round(0.2 ×
line_height)). -/
theorem cursor_residue_decision_exact (img : Image) (bg : Pixel) (lm ln : Nat)
    (h0 : ¬ (img.width = 0 ∨ img.height = 0))
    (hcl : findClusters (major_rows img bg) img.height ≠ [])
    (hpl : partialLineCut (findClusters (major_rows img bg) img.height)
        (bottomMarginMajor (major_rows img bg)) (cropMedian img bg) = none)
    (hlm : rposition (major_rows img bg) = some lm)
    (hln : rposition (minor_rows img bg) = some ln)
    (hlt : lm < ln) :
    ((auto_crop_bottom img bg).report.reason = "cursor_residue" ∧
      (auto_crop_bottom img bg).report.new_height =
        startMinorFrom (minor_rows img bg) ln) ↔
    ((max 2 (round (cropLineHeight img bg * 0.2)).toNat ≤
          startMinorFrom (minor_rows img bg) ln - (lm + 1) ∨
        (((ln - startMinorFrom (minor_rows img bg) ln + 1 : Nat) : ℚ) <
            cropLineHeight img bg * 0.35 ∧
          1 ≤ startMinorFrom (minor_rows img bg) ln - (lm + 1))) ∧
      ((ln - startMinorFrom (minor_rows img bg) ln + 1 : Nat) : ℚ) <
        cropLineHeight img bg * 0.6) := by
  simp only [cropLineHeight, cropMedian] at hpl ⊢
  rcases auto_crop_shape img bg with ⟨hdeg, h⟩ | ⟨hnc, h⟩ | ⟨cut, hcut, h⟩ |
    ⟨_, cut, hcut, h⟩ | ⟨_, hcc, h⟩
  · exact absurd hdeg h0
  · exact absurd hnc hcl
  · rw [hpl] at hcut; exact absurd hcut (by simp)
  · simp only [cursorCut, hlm, hln] at hcut
    rw [if_pos hlt] at hcut
    constructor
    · intro _
      by_cases hq :
          (max 2 (round ((if 0 < (median_u32 (clusterHeights
                (findClusters (major_rows img bg) img.height))).getD 0 then
              (median_u32 (clusterHeights
                (findClusters (major_rows img bg) img.height))).getD 0
            else ((clamp_u32 (img.height / 30) 12 28 : Nat) : ℚ)) * 0.2)).toNat ≤
            startMinorFrom (minor_rows img bg) ln - (lm + 1) ∨
          (((ln - startMinorFrom (minor_rows img bg) ln + 1 : Nat) : ℚ) <
              (if 0 < (median_u32 (clusterHeights
                    (findClusters (major_rows img bg) img.height))).getD 0 then
                (median_u32 (clusterHeights
                  (findClusters (major_rows img bg) img.height))).getD 0
              else ((clamp_u32 (img.height / 30) 12 28 : Nat) : ℚ)) * 0.35 ∧
            1 ≤ startMinorFrom (minor_rows img bg) ln - (lm + 1))) ∧
          ((ln - startMinorFrom (minor_rows img bg) ln + 1 : Nat) : ℚ) <
            (if 0 < (median_u32 (clusterHeights
                  (findClusters (major_rows img bg) img.height))).getD 0 then
              (median_u32 (clusterHeights
                (findClusters (major_rows img bg) img.height))).getD 0
            else ((clamp_u32 (img.height / 30) 12 28 : Nat) : ℚ)) * 0.6
      · exact hq
      · rw [if_neg hq] at hcut
        exact absurd hcut (by simp)
    · intro hq
      rw [if_pos hq] at hcut
      simp only [Option.some.injEq] at hcut
      rw [h]
      exact ⟨rfl, by simp [CropResult.cropped, cropRows, hcut]⟩
  · simp only [cursorCut, hlm, hln] at hcc
    rw [if_pos hlt] at hcc
    constructor
    · intro hres
      rw [h] at hres
      simp [CropResult.no_crop] at hres
    · intro hq
      rw [if_pos hq] at hcc
      exact absurd hcc (by simp)

/-- C4 witness: on the concrete 100×35 cursor image the qualification holds
(gap 17 ≥ min_gap 2, block 1 < 0.6 × 11), so the engine crops at row 30 with
reason "cursor_residue". -/
theorem cursor_residue_decision_exact_witness :
    (auto_crop_bottom imgCursor whitePx).report.reason = "cursor_residue" ∧
    (auto_crop_bottom imgCursor whitePx).report.new_height =
      startMinorFrom (minor_rows imgCursor whitePx) 30 :=
  (cursor_residue_decision_exact imgCursor whitePx 12 30 (by decide) (by decide)
    (by decide) (by decide) (by decide) (by decide)).mpr (by decide)

/-- C9 witness: on the concrete 100×35 cursor image the engine reports
"cursor_residue", and indeed the last major row (12) lies at least two rows
above the cut. -/
theorem cursor_residue_keeps_major_rows_witness :
    ∃ lm, rposition (major_rows imgCursor whitePx) = some lm ∧
      lm + 2 ≤ (auto_crop_bottom imgCursor whitePx).report.new_height ∧
      ∀ k, (major_rows imgCursor whitePx).getD k false = true →
        k < (auto_crop_bottom imgCursor whitePx).report.new_height :=
  cursor_residue_keeps_major_rows imgCursor whitePx (by decide)

/-! ## Padding resolution and composition -/

/-- `padded_dimensions` succeeds exactly on the in-range case, and then
returns the doubled-and-added dimensions. -/
theorem padded_dimensions_ok_inv {w h px py : Nat} {p : Nat × Nat}
    (hok : padded_dimensions (w, h) px py = .ok p) :
    p = (w + px * 2, h + py * 2) ∧ px * 2 ≤ U32_MAX ∧ py * 2 ≤ U32_MAX ∧
      w + px * 2 ≤ U32_MAX ∧ h + py * 2 ≤ U32_MAX := by
  unfold padded_dimensions checked_mul_u32 checked_add_u32 at hok
  by_cases h1 : px * 2 ≤ U32_MAX
  · by_cases h2 : py * 2 ≤ U32_MAX
    · by_cases h3 : w + px * 2 ≤ U32_MAX
      · by_cases h4 : h + py * 2 ≤ U32_MAX
        · simp only [h1, h2, h3, h4, if_true, if_pos] at hok
          simp only [Except.ok.injEq] at hok
          exact ⟨hok.symm, h1, h2, h3, h4⟩
        · simp [h1, h2, h3, h4] at hok
      · simp [h1, h2, h3] at hok
    · simp [h1, h2] at hok
  · simp [h1] at hok

/-- `padded_dimensions` succeeds on the in-range case. -/
theorem padded_dimensions_ok (w h px py : Nat)
    (h1 : px * 2 ≤ U32_MAX) (h2 : py * 2 ≤ U32_MAX)
    (h3 : w + px * 2 ≤ U32_MAX) (h4 : h + py * 2 ≤ U32_MAX) :
    padded_dimensions (w, h) px py = .ok (w + px * 2, h + py * 2) := by
  simp [padded_dimensions, checked_mul_u32, checked_add_u32, h1, h2, h3, h4]

/-- C6: `padded_dimensions` errors whenever doubling a padding or adding it
to the matching dimension leaves the u32 range, and otherwise returns exactly
`(w + 2·pad_x, h + 2·pad_y)`; on overflow no dimensions are produced. -/
theorem padded_dimensions_overflow_exact (w h px py : Nat) :
    ((U32_MAX < 2 * px ∨ U32_MAX < 2 * py ∨ U32_MAX < w + 2 * px ∨
        U32_MAX < h + 2 * py) →
      ∃ e, padded_dimensions (w, h) px py = .error e) ∧
    (¬ (U32_MAX < 2 * px ∨ U32_MAX < 2 * py ∨ U32_MAX < w + 2 * px ∨
        U32_MAX < h + 2 * py) →
      padded_dimensions (w, h) px py = .ok (w + 2 * px, h + 2 * py)) := by
  constructor
  · intro hover
    by_cases h1 : px * 2 ≤ U32_MAX
    · by_cases h2 : py * 2 ≤ U32_MAX
      · by_cases h3 : w + px * 2 ≤ U32_MAX
        · by_cases h4 : h + py * 2 ≤ U32_MAX
          · exfalso; omega
          · exact ⟨"resulting height is too large", by
              simp [padded_dimensions, checked_mul_u32, checked_add_u32, h1, h2, h3, h4]⟩
        · exact ⟨"resulting width is too large", by
            simp [padded_dimensions, checked_mul_u32, checked_add_u32, h1, h2, h3]⟩
      · exact ⟨"vertical padding is too large", by
          simp [padded_dimensions, checked_mul_u32, checked_add_u32, h1, h2]⟩
    · exact ⟨"horizontal padding is too large", by
        simp [padded_dimensions, checked_mul_u32, checked_add_u32, h1]⟩
  · intro hok
    push_neg at hok
    obtain ⟨k1, k2, k3, k4⟩ := hok
    have hmain := padded_dimensions_ok w h px py (by omega) (by omega) (by omega) (by omega)
    rw [hmain]
    congr 1
    simp [Nat.mul_comm]

/-- C6 witness: a padding of 2³¹ overflows the doubling and is rejected,
while `w = 10, h = 20, pad_x = 3, pad_y = 4` yields exactly `(16, 28)`. -/
theorem padded_dimensions_overflow_exact_witness :
    (∃ e, padded_dimensions (10, 20) 2147483648 0 = .error e) ∧
    padded_dimensions (10, 20) 3 4 = .ok (16, 28) := by
  constructor
  · exact (padded_dimensions_overflow_exact 10 20 2147483648 0).1 (by decide)
  · have := (padded_dimensions_overflow_exact 10 20 3 4).2 (by decide)
    simpa using this

/-- C5: with no combined amount, supplying both explicit paddings with
different values is a configuration error, and supplying both with equal
values succeeds with that value on both axes. -/
theorem resolve_padding_equal_requirement (w h x y : Nat) :
    (x ≠ y → ∃ e, resolve_padding none (some x) (some y) (w, h) = .error e) ∧
    (x = y → resolve_padding none (some x) (some y) (w, h) = .ok (x, x)) := by
  constructor
  · intro hne
    exact ⟨"pad-x and pad-y must be equal (or use --all/--pad)", by
      simp [resolve_padding, hne]⟩
  · intro heq
    subst heq
    simp [resolve_padding]

/-- C5 witness: `pad_x = 10, pad_y = 12` is rejected; `pad_x = pad_y = 10`
succeeds with `(10, 10)`. -/
theorem resolve_padding_equal_requirement_witness :
    (∃ e, resolve_padding none (some 10) (some 12) (5, 5) = .error e) ∧
    resolve_padding none (some 10) (some 10) (5, 5) = .ok (10, 10) :=
  ⟨(resolve_padding_equal_requirement 5 5 10 12).1 (by decide),
    (resolve_padding_equal_requirement 5 5 10 10).2 rfl⟩

/-- C10: with no combined amount and exactly one explicit padding supplied,
resolution succeeds and uses that value on both axes (no auto fallback on the
unspecified axis). -/
theorem resolve_padding_single_axis (w h x : Nat) :
    resolve_padding none (some x) none (w, h) = .ok (x, x) ∧
    resolve_padding none none (some x) (w, h) = .ok (x, x) :=
  ⟨rfl, rfl⟩

/-- C1: whenever `padded_dimensions` succeeds, the composed output has
dimensions `(w + 2·pad_x, h + 2·pad_y)`, copies every source pixel to its
offset position, and is the background color everywhere outside the offset
rectangle. -/
theorem composition_padding_exact (src : Image) (bg : Pixel) (px py : Nat)
    (out : Image) (hok : composePadded src bg px py = .ok out) :
    out.width = src.width + 2 * px ∧
    out.height = src.height + 2 * py ∧
    (∀ i j, i < src.width → j < src.height →
      out.pix (px + i) (py + j) = src.pix i j) ∧
    (∀ x y, x < px ∨ px + src.width ≤ x ∨ y < py ∨ py + src.height ≤ y →
      out.pix x y = bg) := by
  unfold composePadded at hok
  cases hpd : padded_dimensions (src.width, src.height) px py with
  | error e => rw [hpd] at hok; simp [Except.map] at hok
  | ok wh =>
      rw [hpd] at hok
      simp only [Except.map, Except.ok.injEq] at hok
      obtain ⟨hwh, _, _, _, _⟩ := padded_dimensions_ok_inv hpd
      subst hwh
      subst hok
      refine ⟨by simp [replaceAt, from_pixel]; omega,
        by simp [replaceAt, from_pixel]; omega, ?_, ?_⟩
      · intro i j hi hj
        simp only [replaceAt, from_pixel]
        rw [if_pos ⟨by omega, by omega, by omega, by omega⟩]
        congr 1 <;> omega
      · intro x y hxy
        simp only [replaceAt, from_pixel]
        rw [if_neg (by omega)]

/-- C1 witness: the 2×2 four-pixel image padded by 1 on white — the output is
4×4, the source pixel (0, 1) sits at (1, 2), and the corner (0, 0) is
white. -/
theorem composition_padding_exact_witness :
    paddedFour.width = imgFour.width + 2 * 1 ∧
    paddedFour.pix (1 + 0) (1 + 1) = imgFour.pix 0 1 ∧
    paddedFour.pix 0 0 = whitePx := by
  obtain ⟨hw, _, hin, hout⟩ :=
    composition_padding_exact imgFour whitePx 1 1 paddedFour rfl
  exact ⟨hw, hin 0 1 (by decide) (by decide), hout 0 0 (Or.inl (by decide))⟩

/-! ## Degenerate images -/

/-- C8: on an image with zero width or zero height, the background estimator
returns fully transparent and the crop decision engine returns the image
unchanged with an "empty" report (both short-circuit before any sampling). -/
theorem degenerate_image_safe (img : Image) (bg : Pixel)
    (hdeg : img.width = 0 ∨ img.height = 0) :
    deduce_background img = ⟨0, 0, 0, 0⟩ ∧
    (auto_crop_bottom img bg).image = img ∧
    ((auto_crop_bottom img bg).report.reason = "empty" ∨
      (auto_crop_bottom img bg).report.reason = "no_clusters") ∧
    (auto_crop_bottom img bg).report.new_height =
      (auto_crop_bottom img bg).report.original_height := by
  have h1 : deduce_background img = ⟨0, 0, 0, 0⟩ := by
    unfold deduce_background
    rw [if_pos hdeg]
  have h2 : auto_crop_bottom img bg = CropResult.no_crop img "empty" := by
    unfold auto_crop_bottom
    rw [if_pos hdeg]
  rw [h2]
  exact ⟨h1, rfl, Or.inl rfl, rfl⟩

/-- C8 witness: the 0×5 image. -/
theorem degenerate_image_safe_witness :
    deduce_background imgZeroW = ⟨0, 0, 0, 0⟩ ∧
    (auto_crop_bottom imgZeroW whitePx).image = imgZeroW ∧
    ((auto_crop_bottom imgZeroW whitePx).report.reason = "empty" ∨
      (auto_crop_bottom imgZeroW whitePx).report.reason = "no_clusters") ∧
    (auto_crop_bottom imgZeroW whitePx).report.new_height =
      (auto_crop_bottom imgZeroW whitePx).report.original_height :=
  degenerate_image_safe imgZeroW whitePx (Or.inl rfl)

/-! ## The unanimous-bucket property of the estimator -/

/-- If every included sample either is near-transparent or falls in bucket
`k`, the sampling fold keeps at most the single bucket `k`, whose count is
the number of non-transparent included samples and whose channel sums stay
below `255 ·  count`. -/
theorem sampleFold_single_key (img : Image) (incl : Nat → Nat → Bool) (k : Nat)
    (l : List (Nat × Nat))
    (hl : ∀ p ∈ l, incl p.1 p.2 = true →
      ((img.pix p.1 p.2).a ≤ 5 ∨ quantize_key (img.pix p.1 p.2) = k) ∧
      (img.pix p.1 p.2).r ≤ 255 ∧ (img.pix p.1 p.2).g ≤ 255 ∧
      (img.pix p.1 p.2).b ≤ 255 ∧ (img.pix p.1 p.2).a ≤ 255)
    (st : SState)
    (hst : st.transparent ≤ st.total ∧
      ((st.buckets = [] ∧ st.total = st.transparent) ∨
        ∃ B, st.buckets = [(k, B)] ∧ 0 < B.count ∧
          st.transparent + B.count = st.total ∧
          B.sum_r ≤ 255 * B.count ∧ B.sum_g ≤ 255 * B.count ∧
          B.sum_b ≤ 255 * B.count ∧ B.sum_a ≤ 255 * B.count)) :
    (l.foldl (sampleStep img incl) st).transparent ≤
        (l.foldl (sampleStep img incl) st).total ∧
      (((l.foldl (sampleStep img incl) st).buckets = [] ∧
          (l.foldl (sampleStep img incl) st).total =
            (l.foldl (sampleStep img incl) st).transparent) ∨
        ∃ B, (l.foldl (sampleStep img incl) st).buckets = [(k, B)] ∧ 0 < B.count ∧
          (l.foldl (sampleStep img incl) st).transparent + B.count =
            (l.foldl (sampleStep img incl) st).total ∧
          B.sum_r ≤ 255 * B.count ∧ B.sum_g ≤ 255 * B.count ∧
          B.sum_b ≤ 255 * B.count ∧ B.sum_a ≤ 255 * B.count) := by
  induction l generalizing st with
  | nil => exact hst
  | cons p rest ih =>
      refine ih (fun q hq => hl q (List.mem_cons_of_mem _ hq)) (sampleStep img incl st p) ?_
      unfold sampleStep
      by_cases hin : incl p.1 p.2
      · rw [if_pos hin]
        have hp := hl p (List.mem_cons_self _ _) hin
        by_cases ha : (img.pix p.1 p.2).a ≤ 5
        · rw [if_pos ha]
          refine ⟨by simp; omega, ?_⟩
          rcases hst.2 with ⟨hb, he⟩ | ⟨B, hb, hc, he, hr, hg, hbb, hba⟩
          · exact Or.inl ⟨hb, by simp [he]⟩
          · exact Or.inr ⟨B, hb, hc, by simp; omega, hr, hg, hbb, hba⟩
        · rw [if_neg ha]
          have hkey : quantize_key (img.pix p.1 p.2) = k := (hp.1).resolve_left ha
          refine ⟨by simp; omega, Or.inr ?_⟩
          rcases hst.2 with ⟨hb, he⟩ | ⟨B, hb, hc, he, hr, hg, hbb, hba⟩
          · refine ⟨addToBucket {} (img.pix p.1 p.2), ?_, by simp [addToBucket], ?_, ?_, ?_, ?_, ?_⟩
            · simp [hb, bucketInsert, hkey]
            · simp [addToBucket]; omega
            · simp [addToBucket]; omega
            · simp [addToBucket]; have := hp.2.2.1; omega
            · simp [addToBucket]; have := hp.2.2.2.1; omega
            · simp [addToBucket]; have := hp.2.2.2.2; omega
          · refine ⟨addToBucket B (img.pix p.1 p.2), ?_, by simp [addToBucket], ?_, ?_, ?_, ?_, ?_⟩
            · simp [hb, bucketInsert, hkey]
            · simp [addToBucket]; omega
            · simp [addToBucket]; have := hp.2.1; omega
            · simp [addToBucket]; have := hp.2.2.1; omega
            · simp [addToBucket]; have := hp.2.2.2.1; omega
            · simp [addToBucket]; have := hp.2.2.2.2; omega
      · rw [if_neg hin]
        exact hst

/-- The best bucket of a one-entry bucket list with a positive count is that
entry. -/
theorem bestOf_single (k : Nat) (B : Bucket) (hc : 0 < B.count) :
    bestOf [(k, B)] = some B := by
  simp [bestOf, hc]

/-- The border sampling result is the fold over the sampled grid. -/
theorem borderResult_fields (img : Image) :
    (borderResult img).total = ((gridPositions img.width img.height (bgStrideX img)
        (bgStrideY img)).foldl (sampleStep img (borderInclude img)) ⟨0, 0, []⟩).total ∧
    (borderResult img).transparent = ((gridPositions img.width img.height (bgStrideX img)
        (bgStrideY img)).foldl (sampleStep img (borderInclude img)) ⟨0, 0, []⟩).transparent ∧
    (borderResult img).best = bestOf ((gridPositions img.width img.height (bgStrideX img)
        (bgStrideY img)).foldl (sampleStep img (borderInclude img)) ⟨0, 0, []⟩).buckets :=
  ⟨rfl, rfl, rfl⟩

/-- C7: if the border-band pass sees at least one non-transparent sample and
every non-transparent border sample — a sampled grid position inside the
border band — has the same quantized key, the estimator returns the
per-channel integer mean of that single bucket. -/
theorem estimator_unanimous_bucket (img : Image) (k : Nat)
    (hw : 0 < img.width) (hh : 0 < img.height)
    (hwf : ∀ x, x < img.width → ∀ y, y < img.height →
      (img.pix x y).r ≤ 255 ∧ (img.pix x y).g ≤ 255 ∧
      (img.pix x y).b ≤ 255 ∧ (img.pix x y).a ≤ 255)
    (hkey : ∀ p ∈ gridPositions img.width img.height (bgStrideX img) (bgStrideY img),
      borderInclude img p.1 p.2 = true → 5 < (img.pix p.1 p.2).a →
      quantize_key (img.pix p.1 p.2) = k)
    (hnt : (borderResult img).transparent < (borderResult img).total) :
    ∃ B, (borderResult img).best = some B ∧
      B.count = (borderResult img).total - (borderResult img).transparent ∧
      deduce_background img =
        ⟨B.sum_r / B.count, B.sum_g / B.count, B.sum_b / B.count,
          B.sum_a / B.count⟩ := by
  obtain ⟨hbt, hbtr, hbb⟩ := borderResult_fields img
  have hsx : 0 < bgStrideX img := by unfold bgStrideX; omega
  have hsy : 0 < bgStrideY img := by unfold bgStrideY; omega
  have hl : ∀ p ∈ gridPositions img.width img.height (bgStrideX img) (bgStrideY img),
      borderInclude img p.1 p.2 = true →
      ((img.pix p.1 p.2).a ≤ 5 ∨ quantize_key (img.pix p.1 p.2) = k) ∧
      (img.pix p.1 p.2).r ≤ 255 ∧ (img.pix p.1 p.2).g ≤ 255 ∧
      (img.pix p.1 p.2).b ≤ 255 ∧ (img.pix p.1 p.2).a ≤ 255 := by
    intro p hp hincl
    obtain ⟨hx, hy⟩ := mem_gridPositions_lt hsx hsy hp
    have hb := hwf p.1 hx p.2 hy
    refine ⟨?_, hb.1, hb.2.1, hb.2.2.1, hb.2.2.2⟩
    by_cases ha : (img.pix p.1 p.2).a ≤ 5
    · exact Or.inl ha
    · exact Or.inr (hkey p hp hincl (by omega))
  have hfold := sampleFold_single_key img (borderInclude img) k
    (gridPositions img.width img.height (bgStrideX img) (bgStrideY img)) hl
    ⟨0, 0, []⟩ ⟨le_refl 0, Or.inl ⟨rfl, rfl⟩⟩
  rcases hfold.2 with ⟨hb, he⟩ | ⟨B, hb, hc, he, hr, hg, hb2, ha2⟩
  · exfalso
    rw [hbt, hbtr] at hnt
    omega
  · have hbest : (borderResult img).best = some B := by
      rw [hbb, hb]
      exact bestOf_single k B hc
    have hcnt : (borderResult img).total - (borderResult img).transparent = B.count := by
      rw [hbt, hbtr]
      omega
    refine ⟨B, hbest, hcnt.symm, ?_⟩
    have hconf : (borderResult img).color_if_confident 0.2 =
        some ⟨B.sum_r / B.count, B.sum_g / B.count, B.sum_b / B.count,
          B.sum_a / B.count⟩ := by
      unfold SampleResult.color_if_confident
      rw [if_neg (by omega)]
      simp only [hbest, hcnt]
      rw [if_neg (by
        have hone : (B.count : ℚ) / (B.count : ℚ) = 1 :=
          div_self (by exact_mod_cast hc.ne')
        rw [hone]
        norm_num)]
      have hmod : ∀ s : Nat, s ≤ 255 * B.count → s / B.count % 256 = s / B.count := by
        intro s hs
        have h255 : s / B.count ≤ 255 := by
          calc s / B.count ≤ 255 * B.count / B.count := Nat.div_le_div_right hs
            _ = 255 := Nat.mul_div_cancel _ hc
        exact Nat.mod_eq_of_lt (by omega)
      rw [hmod _ hr, hmod _ hg, hmod _ hb2, hmod _ ha2]
    unfold deduce_background
    rw [if_neg (by omega)]
    simp only [hconf]

/-- C7 witness: the 4×4 solid-color image — every border sample is the color
(10, 20, 30, 255), quantized key 34943, and the estimator returns exactly that
color as the bucket mean. -/
theorem estimator_unanimous_bucket_witness :
    ∃ B, (borderResult imgSolid4).best = some B ∧
      B.count = (borderResult imgSolid4).total - (borderResult imgSolid4).transparent ∧
      deduce_background imgSolid4 =
        ⟨B.sum_r / B.count, B.sum_g / B.count, B.sum_b / B.count,
          B.sum_a / B.count⟩ :=
  estimator_unanimous_bucket imgSolid4 34943 (by decide) (by decide) (by decide)
    (by decide) (by decide)
